import Mathlib

/-!
Shallow embedding of the ct-ext-search sources (`src/main.rs`, `src/cert_ext.rs`).
Byte buffers are `List Nat`; multi-byte integers are decoded big-endian.
Fallible code returns `Except Err`.
-/

namespace CtExtSearch

/-- Error kinds arising in the embedded code. `loopFuel` is an artifact of the
fuel-based loop embeddings and is unreachable with the fuel the wrappers supply.
`subUnderflow` models the u64 subtraction underflow in `dl_range` (a Rust panic
in debug builds). -/
inductive Err where
  | eof
  | badTag
  | badLen
  | extraData
  | unsupportedVersion (v : Nat)
  | unsupportedLeafType (t : Nat)
  | unknownEntryType (t : Nat)
  | emptyBatch
  | subUnderflow
  | startAfterEnd
  | loopFuel
deriving DecidableEq

/-- Big-endian value of a byte list. -/
def beVal (l : List Nat) : Nat := l.foldl (fun a b => a * 256 + b) 0

/-- Fixed-width big-endian encoding (`w` bytes) of `n`, truncating to `n % 256 ^ w`
like a machine-integer store does. -/
def beBytesFixed : Nat → Nat → List Nat
  | 0, _ => []
  | w + 1, n => beBytesFixed w (n / 256) ++ [n % 256]

/-- `byteorder::ReadBytesExt::read_u8` on a byte-list reader. -/
def read_u8 : List Nat → Except Err (Nat × List Nat)
  | [] => .error .eof
  | b :: r => .ok (b, r)

/-- `std::io::Read::read_exact` into a buffer of length `n`. -/
def read_exact (n : Nat) (l : List Nat) : Except Err (List Nat × List Nat) :=
  if n ≤ l.length then .ok (l.take n, l.drop n) else .error .eof

/-- `read_u16::<BigEndian>`. -/
def read_u16be (l : List Nat) : Except Err (Nat × List Nat) := do
  let (bs, r) ← read_exact 2 l
  .ok (beVal bs, r)

/-- `read_u64::<BigEndian>`. -/
def read_u64be (l : List Nat) : Except Err (Nat × List Nat) := do
  let (bs, r) ← read_exact 8 l
  .ok (beVal bs, r)

/-- `read_u24` from `src/main.rs`: three `read_u8` calls combined big-endian. -/
def read_u24 (l : List Nat) : Except Err (Nat × List Nat) := do
  let (a, r1) ← read_u8 l
  let (b, r2) ← read_u8 r1
  let (c, r3) ← read_u8 r2
  .ok (a * 65536 + b * 256 + c, r3)

/-- `enum Entry` from `src/main.rs`. -/
inductive Entry where
  | X509Entry (der : List Nat)
  | PrecertEntry (issuer_key_hash : List Nat) (der : List Nat)
deriving DecidableEq

/-- `struct TimestampedEntry` from `src/main.rs`. The source struct carries only
these two fields; its `// TODO extensions` comment marks that `ct_extensions`
is neither parsed nor stored. -/
structure TimestampedEntry where
  timestamp : Nat
  signed_entry : Entry
deriving DecidableEq

/-- The `match entry_type` arms of `parse_timestamped_entry`, factored out
with the surrounding state (timestamp, remaining input) passed explicitly. -/
def parse_entry_body (entry_type timestamp : Nat) (r4 : List Nat) :
    Except Err TimestampedEntry :=
  match entry_type with
  | 0 => do
      let (leaf_certificate_len, r5) ← read_u24 r4
      let (der, _) ← read_exact leaf_certificate_len r5
      .ok ⟨timestamp, .X509Entry der⟩
  | 1 => do
      let (issuer_key_hash, r5) ← read_exact 32 r4
      let (precert_tbs_len, r6) ← read_u24 r5
      let (der, _) ← read_exact precert_tbs_len r6
      .ok ⟨timestamp, .PrecertEntry issuer_key_hash der⟩
  | t => .error (.unknownEntryType t)

/-- `parse_timestamped_entry` from `src/main.rs`. -/
def parse_timestamped_entry (buf : List Nat) : Except Err TimestampedEntry := do
  let (version, r1) ← read_u8 buf
  if version ≠ 0 then .error (.unsupportedVersion version) else do
  let (leaf_type, r2) ← read_u8 r1
  if leaf_type ≠ 0 then .error (.unsupportedLeafType leaf_type) else do
  let (timestamp, r3) ← read_u64be r2
  let (entry_type, r4) ← read_u16be r3
  parse_entry_body entry_type timestamp r4

/-- `enum LogEntryType` from `src/main.rs`. -/
inductive LogEntryType where
  | X509Entry
  | PrecertEntry
  | Other (t : Nat)
deriving DecidableEq

/-- `struct LogEntry` from `src/main.rs`. -/
structure LogEntry where
  entry_type : LogEntryType
  leaf : List Nat
  chain : List (List Nat)
deriving DecidableEq

/-- The `for _ in 0..chain_len` body of `read_certificate_chain`. -/
def read_chain_certs : Nat → List Nat → Except Err (List (List Nat) × List Nat)
  | 0, l => .ok ([], l)
  | k + 1, l => do
      let (cert_len, r1) ← read_u24 l
      let (cert_buf, r2) ← read_exact cert_len r1
      let (rest, r3) ← read_chain_certs k r2
      .ok (cert_buf :: rest, r3)

/-- `read_certificate_chain` from `src/main.rs`. -/
def read_certificate_chain (l : List Nat) : Except Err (List (List Nat) × List Nat) := do
  let (chain_len, r) ← read_u24 l
  read_chain_certs chain_len r

/-- `read_precert_chain_entry` from `src/main.rs` (defined there but never called). -/
def read_precert_chain_entry (buf : List Nat) : Except Err (List Nat × List (List Nat)) := do
  let (cert_len, r1) ← read_u24 buf
  let (pre_cert_buf, r2) ← read_exact cert_len r1
  let (chain, _) ← read_certificate_chain r2
  .ok (pre_cert_buf, chain)

/-- The `match entry_type` mapping at the top of `read_log_entry`: CT 1.0
tags map to the two known entry kinds, anything else to `Other` without
bailing. -/
def logEntryTypeOfTag : Nat → LogEntryType
  | 0 => .X509Entry
  | 1 => .PrecertEntry
  | v => .Other v

/-- `read_log_entry` from `src/main.rs`: the decoder the Filter arm applies to
`extra_data` for every leaf kind. -/
def read_log_entry (buf : List Nat) : Except Err LogEntry := do
  let (raw_entry_type, r1) ← read_u16be buf
  let entry_type : LogEntryType := logEntryTypeOfTag raw_entry_type
  let (cert_len, r2) ← read_u24 r1
  let (pre_cert_buf, r3) ← read_exact cert_len r2
  let (chain, _) ← read_certificate_chain r3
  .ok ⟨entry_type, pre_cert_buf, chain⟩

/-!
Model of `src/cert_ext.rs` on top of the yasna DER reader semantics it uses.
A DER value (TLV) is parsed from the front of a byte list; identifier octets
with tag number 31 (multi-byte tags) are out of the modelled universe. yasna's
`read_optional` turns an end-of-input error at the start of the optional value
into `None`; with non-empty remaining input the callback runs normally.
-/

/-- Parse the identifier and length octets of the DER value at the front of
`bs`; returns (header length, content length). DER requires definite,
minimally-encoded lengths. -/
def derHeader (bs : List Nat) : Except Err (Nat × Nat) :=
  match bs with
  | [] => .error .eof
  | t :: rest =>
    if t % 32 = 31 then .error .badTag
    else
      match rest with
      | [] => .error .eof
      | b :: r2 =>
        if b < 128 then .ok (2, b)
        else
          let m := b - 128
          if m = 0 then .error .badLen
          else if r2.length < m then .error .eof
          else
            let n := beVal (r2.take m)
            if (r2.take m).headD 0 = 0 ∨ n < 128 then .error .badLen
            else .ok (2 + m, n)

/-- Total size of the DER value at the front of `bs` (header plus content),
checking the content is in range. -/
def derSize (bs : List Nat) : Except Err Nat := do
  let (h, c) ← derHeader bs
  if h + c ≤ bs.length then .ok (h + c) else .error .eof

/-- Identifier octet and content of the DER value at the front of `bs`. -/
def derContent (bs : List Nat) : Except Err (Nat × List Nat) := do
  let (h, c) ← derHeader bs
  if h + c ≤ bs.length then .ok (bs.headD 0, (bs.drop h).take c) else .error .eof

/-- `rdr.read_der()`: skip one DER value, returning the remaining input. -/
def skipDer (bs : List Nat) : Except Err (List Nat) := do
  let k ← derSize bs
  .ok (bs.drop k)

/-- `read_tagged`-style read: require the identifier octet `tag`, return the
content and the input after the value. -/
def readTaggedContent (tag : Nat) (bs : List Nat) : Except Err (List Nat × List Nat) := do
  let (t, content) ← derContent bs
  if t = tag then do
    let k ← derSize bs
    .ok (content, bs.drop k)
  else .error .badTag

/-- Base-128 groups of an OID content encoding (high bit continues a group). -/
def oidGroupsGo : List Nat → Nat → Bool → List Nat → Except Err (List Nat)
  | [], _, inGroup, acc => if inGroup then .error .eof else .ok acc.reverse
  | b :: r, cur, _, acc =>
      let v := cur * 128 + b % 128
      if b < 128 then oidGroupsGo r 0 false (v :: acc)
      else oidGroupsGo r v true acc

/-- `read_oid` content decoding: the first group encodes the first two arcs. -/
def decodeOid (content : List Nat) : Except Err (List Nat) := do
  let gs ← oidGroupsGo content 0 false []
  match gs with
  | [] => .error .eof
  | g0 :: rest =>
      if g0 < 40 then .ok (0 :: g0 :: rest)
      else if g0 < 80 then .ok (1 :: (g0 - 40) :: rest)
      else .ok (2 :: (g0 - 80) :: rest)

/-- One `Extension` blob, as re-parsed by the inner `yasna::parse_der` call in
`push_cert_extensions`: a SEQUENCE of extnID OID, optional BOOLEAN critical
(recognised by tag lookahead), and extnValue OCTET STRING, consuming the
whole blob. Returns the extension OID's arcs. -/
def extOne (ext : List Nat) : Except Err (List Nat) := do
  let (sc, rest) ← readTaggedContent 48 ext
  if rest = [] then do
    let (t1, oidContent) ← derContent sc
    if t1 = 6 then do
      let oid ← decodeOid oidContent
      let sc1 ← skipDer sc
      match sc1 with
      | [] => .error .eof
      | tb :: _ =>
        if tb / 64 = 0 ∧ tb % 32 = 1 then do
          let sc2 ← skipDer sc1
          let (t3, _) ← derContent sc2
          if t3 = 4 then do
            let sc3 ← skipDer sc2
            if sc3 = [] then .ok oid else .error .extraData
          else .error .badTag
        else do
          let (t3, _) ← derContent sc1
          if t3 = 4 then do
            let sc3 ← skipDer sc1
            if sc3 = [] then .ok oid else .error .extraData
          else .error .badTag
    else .error .badTag
  else .error .extraData

/-- The `while let Some(_) = rdr.read_optional(...)` loop over the extensions
SEQUENCE content. The fuel argument only bounds recursion depth; each step
consumes at least one byte, so fuel `bs.length` (supplied by the callers)
always suffices. -/
def extLoop : Nat → List Nat → Except Err (List (List Nat))
  | _, [] => .ok []
  | 0, _ :: _ => .error .loopFuel
  | fuel + 1, bs => do
      let k ← derSize bs
      let oid ← extOne (bs.take k)
      let rest ← extLoop fuel (bs.drop k)
      .ok (oid :: rest)

/-- `push_cert_extensions` from `src/cert_ext.rs`: reads the TBSCertificate
SEQUENCE from the front of `bs`, skips the seven mandatory fields with
`read_der`, then looks for the `[3]` extensions wrapper by tag lookahead
inside a `read_optional`. The unique-ID fields are not handled (the source's
`// TODO issuerUniqueID / subjectUniqueID`): any unconsumed bytes left in the
TBS SEQUENCE make the enclosing `read_sequence` fail. Returns the collected
OIDs and the input after the TBS value. -/
def push_cert_extensions (bs : List Nat) : Except Err (List (List Nat) × List Nat) := do
  let (tbsC, rest) ← readTaggedContent 48 bs
  let c1 ← skipDer tbsC
  let c2 ← skipDer c1
  let c3 ← skipDer c2
  let c4 ← skipDer c3
  let c5 ← skipDer c4
  let c6 ← skipDer c5
  let c7 ← skipDer c6
  match c7 with
  | [] => .ok ([], rest)
  | tb :: _ =>
    if tb % 32 = 3 then do
      let (extsC, c8) ← readTaggedContent 163 c7
      let (seqC, innerRest) ← readTaggedContent 48 extsC
      if innerRest = [] then do
        let oids ← extLoop seqC.length seqC
        if c8 = [] then .ok (oids, rest) else .error .extraData
      else .error .extraData
    else .error .extraData

/-- `list_pre_cert_extensions_der` from `src/cert_ext.rs`: a bare
TBSCertificate; `yasna::parse_der` demands the whole input be consumed. -/
def list_pre_cert_extensions_der (cert_der : List Nat) : Except Err (List (List Nat)) := do
  let (oids, rest) ← push_cert_extensions cert_der
  if rest = [] then .ok oids else .error .extraData

/-- `list_cert_extensions_der` from `src/cert_ext.rs`: the outer Certificate
SEQUENCE wraps the TBS, the signatureAlgorithm and the signature, the last two
skipped with `read_der`. -/
def list_cert_extensions_der (cert_der : List Nat) : Except Err (List (List Nat)) := do
  let (certC, rest0) ← readTaggedContent 48 cert_der
  let (oids, r1) ← push_cert_extensions certC
  let r2 ← skipDer r1
  let r3 ← skipDer r2
  if r3 = [] then
    if rest0 = [] then .ok oids else .error .extraData
  else .error .extraData

/-!
Model of the ranged downloader `dl_range` and of the subcommand arms of `main`
(`src/main.rs`). A raw entry is the pair (leaf_input, extra_data) after base64
decoding; the server is a function from (request ordinal, requested start,
requested count) to the delivered entries. The sink carries explicit state
`σ`, mirroring the `FnMut` closure; on a sink error the loop stops with that
error.
-/

/-- A raw CT entry: (leaf_input bytes, extra_data bytes). -/
def RawEntry := List Nat × List Nat

/-- `OID_NAME_CONSTRAINTS` from `src/main.rs`. -/
def OID_NAME_CONSTRAINTS : List Nat := [2, 5, 29, 30]

/-- `INTERESTING_OIDS` from `src/main.rs`. -/
def INTERESTING_OIDS : List (List Nat) := [OID_NAME_CONSTRAINTS]

/-- The duplicated `for oid in oids { for ioid in INTERESTING_OIDS { if ioid ==
oid.components() ... } }` test of the Filter, Scan and LiveStream arms, as the
predicate deciding whether an entry is emitted as a match. -/
def matchesInteresting (oids : List (List Nat)) : Bool :=
  oids.any (fun oid => INTERESTING_OIDS.any (fun ioid => ioid == oid))

/-- The per-leaf pipeline shared verbatim by the Filter and Scan arms: parse
the leaf_input, pick the cert or pre-cert extraction path by the signed-entry
tag, and test the extracted OIDs. -/
def process_leaf (leaf : List Nat) : Except Err Bool := do
  let entry ← parse_timestamped_entry leaf
  let oids ←
    match entry.signed_entry with
    | .X509Entry der => list_cert_extensions_der der
    | .PrecertEntry _ der => list_pre_cert_extensions_der der
  .ok (matchesInteresting oids)

/-- The `while start < op_end` loop of `dl_range`. The fuel argument only
bounds the recursion depth: every iteration advances `start` by at least one,
so the `op_end - op_start` supplied by `dl_range` always suffices and the
`loopFuel` branch is unreachable from it. Returns the final sink state and
`none` on success. -/
def dl_loop {σ : Type} (serve : Nat → Nat → Nat → List RawEntry)
    (sink : σ → Nat → List RawEntry → Except Err σ) (op_end : Nat) :
    Nat → Nat → Nat → Nat → σ → σ × Option Err
  | fuel, k, start, smallest_size, st =>
    if start < op_end then
      match fuel with
      | 0 => (st, some .loopFuel)
      | fuel + 1 =>
        let reqEnd := min op_end (start + smallest_size - 1)
        let entries := serve k start (reqEnd + 1 - start)
        let entries_len := entries.length
        match sink st start entries with
        | .error e => (st, some e)
        | .ok st2 =>
          if entries_len = 0 then (st2, some .emptyBatch)
          else dl_loop serve sink op_end fuel (k + 1) (start + entries_len)
            (min 30 entries_len) st2
    else (st, none)

/-- `dl_range` from `src/main.rs`. The initial batch size is
`(op_end - op_start + 1).min(STEP_SIZE)` with an unchecked u64 subtraction:
when `op_start > op_end` that subtraction underflows (a panic in debug
builds), modelled as the `subUnderflow` error. -/
def dl_range {σ : Type} (serve : Nat → Nat → Nat → List RawEntry)
    (sink : σ → Nat → List RawEntry → Except Err σ)
    (op_start op_end : Nat) (st : σ) : σ × Option Err :=
  if op_end < op_start then (st, some .subUnderflow)
  else dl_loop serve sink op_end (op_end - op_start) 0 op_start
    (min (op_end - op_start + 1) 30) st

/-- A sink that records each invocation as a `(batch_start, count)` pair. -/
def traceSink (st : List (Nat × Nat)) (bstart : Nat) (entries : List RawEntry) :
    Except Err (List (Nat × Nat)) :=
  .ok (st ++ [(bstart, entries.length)])

/-- `dl_range` observed through its sink-invocation trace. -/
def dl_trace (serve : Nat → Nat → Nat → List RawEntry) (op_start op_end : Nat) :
    List (Nat × Nat) × Option Err :=
  dl_range serve traceSink op_start op_end []

/-- A mock server that answers request `k` with `counts k` copies of a dummy
entry, regardless of the requested range. -/
def mockServe (counts : Nat → Nat) : Nat → Nat → Nat → List RawEntry :=
  fun k _ _ => List.replicate (counts k) (([], []) : RawEntry)

/-- A server backed by log contents `log`, answering request `k` with the
`counts k` consecutive entries starting at the requested start index. -/
def logServe (log : Nat → RawEntry) (counts : Nat → Nat) :
    Nat → Nat → Nat → List RawEntry :=
  fun k st _ => (List.range (counts k)).map (fun j => log (st + j))

/-- A server that delivers exactly the requested entries from `log`. -/
def fullServe (log : Nat → RawEntry) : Nat → Nat → Nat → List RawEntry :=
  fun _ st q => (List.range q).map (fun j => log (st + j))

/-- The indices of the entries of one batch after another. -/
def batchIndices : List (Nat × Nat) → List Nat
  | [] => []
  | (s, n) :: r => List.range' s n ++ batchIndices r

/-- Batches are contiguous from `s`: each batch starts where the previous one
ended and is non-empty. -/
def chainedFrom : Nat → List (Nat × Nat) → Prop
  | _, [] => True
  | s, (bs, n) :: r => bs = s ∧ 1 ≤ n ∧ chainedFrom (s + n) r

/-- Total number of entries delivered over a trace. -/
def sumCounts (tr : List (Nat × Nat)) : Nat := (tr.map Prod.snd).sum

/-- The key built by both the Dl and the Filter arm:
`{kind: u8 = 1} || {index: u64 big-endian}`. -/
def dl_key (id : Nat) : List Nat := 1 :: beBytesFixed 8 id

/-- Key construction in the Filter arm (`src/main.rs`, Filter match arm). -/
def filter_key (id : Nat) : List Nat := 1 :: beBytesFixed 8 id

/-- The cache value written by the Dl arm: u64-BE leaf length, leaf bytes,
u64-BE extra length, extra bytes. -/
def dl_value (leaf extra : List Nat) : List Nat :=
  beBytesFixed 8 leaf.length ++ leaf ++ beBytesFixed 8 extra.length ++ extra

/-- The cache value decoding performed by the Filter arm. -/
def filter_read_value (v : List Nat) : Except Err (List Nat × List Nat) := do
  let (leaf_len, r1) ← read_u64be v
  let (leaf, r2) ← read_exact leaf_len r1
  let (extra_len, r3) ← read_u64be r2
  let (extra, _) ← read_exact extra_len r3
  .ok (leaf, extra)

/-- The sink of the Dl arm: store each entry of the batch under its key. The
state is the list of (key, value) writes issued to the database. -/
def dl_sink (st : List (List Nat × List Nat)) (bstart : Nat)
    (entries : List RawEntry) : Except Err (List (List Nat × List Nat)) :=
  .ok (st ++ entries.enum.map (fun p => (dl_key (bstart + p.1), dl_value p.2.1 p.2.2)))

/-- The Dl arm of `main`: calls `dl_range` with no start/end guard. -/
def dl_mode (serve : Nat → Nat → Nat → List RawEntry) (start endIdx : Nat) :
    List (List Nat × List Nat) × Option Err :=
  dl_range serve dl_sink start endIdx []

/-- One batch of the Scan arm's sink: run `process_leaf` on each entry,
collecting the indices of the matches (the source prints the matched cert's
base64; the index identifies which entry that was). -/
def scan_batch : Nat → List RawEntry → Except Err (List Nat)
  | _, [] => .ok []
  | i, entry :: rest => do
      let b ← process_leaf entry.1
      let r ← scan_batch (i + 1) rest
      .ok (if b then i :: r else r)

/-- The sink of the Scan arm. -/
def scan_sink (st : List Nat) (bstart : Nat) (entries : List RawEntry) :
    Except Err (List Nat) := do
  let m ← scan_batch bstart entries
  .ok (st ++ m)

/-- The Scan arm of `main`: explicit `start > end` guard, then `dl_range` with
the match-and-print sink. -/
def scan_mode (serve : Nat → Nat → Nat → List RawEntry) (start endIdx : Nat) :
    List Nat × Option Err :=
  if endIdx < start then ([], some .startAfterEnd)
  else dl_range serve scan_sink start endIdx []

/-- One index of the Filter arm's `for id in start ..= end` loop: a missing
database entry yields `none` (the loop breaks), otherwise decode the cache
value, run the shared leaf pipeline, and read the chain from `extra_data`. -/
def filter_step (dbGet : Nat → Option (List Nat)) (id : Nat) :
    Except Err (Option Bool) :=
  match dbGet id with
  | none => .ok none
  | some v => do
      let (leaf, extra) ← filter_read_value v
      let b ← process_leaf leaf
      let _ ← read_log_entry extra
      .ok (some b)

/-- The Filter arm's loop over the ids, returning the matched indices. -/
def filter_loop (dbGet : Nat → Option (List Nat)) : List Nat → Except Err (List Nat)
  | [] => .ok []
  | id :: rest => do
      match ← filter_step dbGet id with
      | none => .ok []
      | some b => do
          let r ← filter_loop dbGet rest
          .ok (if b then id :: r else r)

/-- The Filter arm of `main` over the inclusive range `[start, endIdx]`. -/
def filter_mode (dbGet : Nat → Option (List Nat)) (start endIdx : Nat) :
    Except Err (List Nat) :=
  filter_loop dbGet (List.range' start (endIdx + 1 - start))

/-!
Encoders used to state the wire formats the decoders consume, plus the
concrete inputs used by the counterexamples and witnesses.
-/

/-- Minimal big-endian byte encoding of `n` (one byte for `n < 256`). -/
def beBytesMin (n : Nat) : List Nat :=
  if _h : n < 256 then [n] else beBytesMin (n / 256) ++ [n % 256]
termination_by n
decreasing_by exact Nat.div_lt_self (by omega) (by omega)

/-- DER definite-length octets for a content length `n`. -/
def derLen (n : Nat) : List Nat :=
  if n < 128 then [n] else (128 + (beBytesMin n).length) :: beBytesMin n

/-- A DER value with identifier octet `tag` and the given content. -/
def derBlob (tag : Nat) (content : List Nat) : List Nat :=
  tag :: derLen content.length ++ content

/-- The repeated (u24 length, certificate) body of a `certificate_chain`. -/
def chainBody : List (List Nat) → List Nat
  | [] => []
  | c :: r => beBytesFixed 3 c.length ++ c ++ chainBody r

/-- RFC 6962 `certificate_chain`: u24 count, then length-prefixed certs. -/
def encodeChain (chain : List (List Nat)) : List Nat :=
  beBytesFixed 3 chain.length ++ chainBody chain

/-- The single blob shape `read_log_entry` accepts: u16 entry_type, u24
leading-blob length, the blob, then a `certificate_chain`. -/
def encodeLogEntryBlob (t : Nat) (leaf : List Nat) (chain : List (List Nat)) : List Nat :=
  beBytesFixed 2 t ++ beBytesFixed 3 leaf.length ++ leaf ++ encodeChain chain

/-- Leaf-structure policy errors of `parse_timestamped_entry`: the
UnsupportedLeaf bails (version, leaf_type) and the UnknownEntryType bail. -/
def isLeafPolicyErr : Err → Bool
  | .unsupportedVersion _ => true
  | .unsupportedLeafType _ => true
  | .unknownEntryType _ => true
  | _ => false

/-- DER NULL, standing in for a TBS field the extractor skips opaquely. -/
def nullDer : List Nat := [5, 0]

/-- An Extension SEQUENCE holding the nameConstraints OID 2.5.29.30 and an
empty extnValue OCTET STRING. -/
def extNameConstraintsDer : List Nat := [48, 7, 6, 3, 85, 29, 30, 4, 0]

/-- The `[3]` extensions wrapper around a SEQUENCE holding that extension. -/
def extensionsWrapper : List Nat := [163, 11, 48, 9] ++ extNameConstraintsDer

/-- An issuerUniqueID field: `[1]` IMPLICIT BIT STRING (0 unused bits). -/
def uniqueIdDer : List Nat := [129, 2, 0, 255]

/-- A certificate whose TBS carries issuerUniqueID before the `[3]`
extensions wrapper (the seven mandatory fields stand as opaque DER values,
which the extractor skips with `read_der` without looking inside). -/
def certWithUniqueId : List Nat :=
  [48, 37] ++
    ([48, 31] ++ nullDer ++ nullDer ++ nullDer ++ nullDer ++ nullDer ++ nullDer ++
      nullDer ++ uniqueIdDer ++ extensionsWrapper) ++ nullDer ++ nullDer

/-- A bare TBS carrying issuerUniqueID and no `[3]` extensions wrapper. -/
def tbsWithUniqueIdNoExt : List Nat :=
  [48, 18] ++ nullDer ++ nullDer ++ nullDer ++ nullDer ++ nullDer ++ nullDer ++
    nullDer ++ uniqueIdDer

/-- A certificate whose only extension is nameConstraints. -/
def certNameConstraints : List Nat :=
  [48, 33] ++
    ([48, 27] ++ nullDer ++ nullDer ++ nullDer ++ nullDer ++ nullDer ++ nullDer ++
      nullDer ++ extensionsWrapper) ++ nullDer ++ nullDer

/-- A leaf_input (version 0, leaf_type 0, timestamp 0, X509 entry) whose
certificate is `certNameConstraints`. -/
def leafNameConstraints : List Nat :=
  [0, 0, 0, 0, 0, 0, 0, 0, 0, 0, 0, 0, 0, 0, 35] ++ certNameConstraints

/-- An `extra_data` blob `read_log_entry` accepts: entry_type 0, empty
leading blob, empty chain. -/
def extraDataEmpty : List Nat := [0, 0, 0, 0, 0, 0, 0, 0]

/-- The S3 leaf_input of the spec: version 0, leaf_type 0, timestamp bytes
0x0000_0178_9ABC_DEF0, entry_type 0, u24 length 5, five 0xAA bytes, and a
zero u16 ct_extensions length. -/
def c4LeafInput : List Nat :=
  [0, 0, 0, 0, 1, 120, 154, 188, 222, 240, 0, 0, 0, 0, 5,
   170, 170, 170, 170, 170, 0, 0]

/-- The S5 mock server: 30 entries, then 30, then none. -/
def counts303000 : Nat → Nat := fun k => if k = 0 then 30 else if k = 1 then 30 else 0

/-- Log contents where every entry is the nameConstraints leaf. -/
def constLogNC : Nat → RawEntry := fun _ => (leafNameConstraints, extraDataEmpty)

/-- A cache holding `constLogNC` under the Dl arm's value encoding. -/
def dbNC : Nat → Option (List Nat) :=
  fun _ => some (dl_value leafNameConstraints extraDataEmpty)

/-- The u64 subtraction `op_end - op_start` at the top of `dl_range`,
computed without truncation. -/
def dlRangeSub (op_start op_end : Nat) : Int := (op_end : Int) - (op_start : Int)

/-- The subtraction underflows in u64 exactly when its exact value is
negative. -/
def u64SubUnderflows (op_start op_end : Nat) : Prop := dlRangeSub op_start op_end < 0

/-- Decidable equality on `Except`, for evaluating concrete runs. -/
instance {ε α : Type} [DecidableEq ε] [DecidableEq α] : DecidableEq (Except ε α)
  | .ok a, .ok b =>
      if h : a = b then .isTrue (by rw [h])
      else .isFalse (fun hc => h (Except.ok.inj hc))
  | .ok _, .error _ => .isFalse (fun hc => Except.noConfusion hc)
  | .error _, .ok _ => .isFalse (fun hc => Except.noConfusion hc)
  | .error e, .error f =>
      if h : e = f then .isTrue (by rw [h])
      else .isFalse (fun hc => h (Except.error.inj hc))

/-! ### Basic lemmas about the byte primitives -/

theorem ebind_ok {α β : Type} (a : α) (f : α → Except Err β) :
    (Except.ok a >>= f) = f a := rfl

theorem ebind_error {α β : Type} (e : Err) (f : α → Except Err β) :
    ((Except.error e : Except Err α) >>= f) = .error e := rfl

theorem beVal_append_one (l : List Nat) (b : Nat) :
    beVal (l ++ [b]) = beVal l * 256 + b := by
  simp [beVal, List.foldl_append]

theorem beBytesFixed_length (w n : Nat) : (beBytesFixed w n).length = w := by
  induction w generalizing n with
  | zero => rfl
  | succ w ih => simp [beBytesFixed, ih]

theorem beVal_beBytesFixed (w n : Nat) (h : n < 256 ^ w) :
    beVal (beBytesFixed w n) = n := by
  induction w generalizing n with
  | zero =>
      simp only [beBytesFixed, beVal, List.foldl_nil]
      simp only [pow_zero] at h
      omega
  | succ w ih =>
      have hpow : 256 ^ (w + 1) = 256 ^ w * 256 := by ring
      rw [beBytesFixed, beVal_append_one, ih (n / 256) (by omega)]
      omega

theorem read_exact_of_le {n : Nat} {l : List Nat} (h : n ≤ l.length) :
    read_exact n l = .ok (l.take n, l.drop n) := by
  simp [read_exact, h]

theorem read_exact_of_lt {n : Nat} {l : List Nat} (h : l.length < n) :
    read_exact n l = .error .eof := by
  simp only [read_exact, ite_eq_right_iff]
  omega

theorem read_exact_append (L r : List Nat) :
    read_exact L.length (L ++ r) = .ok (L, r) := by
  rw [read_exact_of_le (by simp)]
  rw [List.take_left, List.drop_left]

theorem read_exact_len_append {n : Nat} (L r : List Nat) (h : L.length = n) :
    read_exact n (L ++ r) = .ok (L, r) := by
  subst h
  exact read_exact_append L r

theorem read_u16be_encode (t : Nat) (r : List Nat) (h : t < 65536) :
    read_u16be (beBytesFixed 2 t ++ r) = .ok (t, r) := by
  rw [read_u16be, read_exact_len_append _ r (beBytesFixed_length 2 t), ebind_ok]
  show Except.ok (beVal (beBytesFixed 2 t), r) = Except.ok (t, r)
  rw [beVal_beBytesFixed 2 t (by norm_num at h ⊢; omega)]

theorem read_u64be_encode (n : Nat) (r : List Nat) (h : n < 2 ^ 64) :
    read_u64be (beBytesFixed 8 n ++ r) = .ok (n, r) := by
  rw [read_u64be, read_exact_len_append _ r (beBytesFixed_length 8 n), ebind_ok]
  show Except.ok (beVal (beBytesFixed 8 n), r) = Except.ok (n, r)
  rw [beVal_beBytesFixed 8 n (by norm_num at h ⊢; omega)]

theorem read_u24_encode (n : Nat) (r : List Nat) (h : n < 2 ^ 24) :
    read_u24 (beBytesFixed 3 n ++ r) = .ok (n, r) := by
  have hb : beBytesFixed 3 n = [n / 65536 % 256, n / 256 % 256, n % 256] := by
    simp [beBytesFixed, Nat.div_div_eq_div_mul]
  rw [hb]
  show read_u24 (n / 65536 % 256 :: n / 256 % 256 :: n % 256 :: r) = _
  rw [read_u24]
  simp only [read_u8, ebind_ok]
  have : n / 65536 % 256 * 65536 + n / 256 % 256 * 256 + n % 256 = n := by omega
  rw [this]

/-! ### C4, C2 and related concrete evaluations -/

/-- C4: the S3 leaf_input decodes successfully; the timestamp is the u64
value of the big-endian bytes 0x0000_0178_9ABC_DEF0, i.e. 1617503772400 (not
the spec's decimal 1612345678896), the signed_entry is X509 with the five
0xAA bytes, and the source's `TimestampedEntry` carries no ct_extensions
field at all: the record below is the entire parse result, and the final two
ct_extensions_len bytes of the input are never read. -/
theorem parse_c4_leaf :
    parse_timestamped_entry c4LeafInput =
      .ok ⟨1617503772400, .X509Entry [170, 170, 170, 170, 170]⟩ := by
  rfl

/-- C2: a certificate carrying the optional issuerUniqueID field before the
`[3]` extensions wrapper is rejected by `list_cert_extensions_der` (the
enclosing `read_sequence` fails on the unconsumed unique-ID bytes), instead
of the claimed success with the extension OID list. -/
theorem cert_with_unique_id_rejected :
    list_cert_extensions_der certWithUniqueId = .error .extraData ∧
      list_cert_extensions_der certWithUniqueId ≠ .ok [[2, 5, 29, 30]] := by
  constructor
  · rfl
  · decide

/-- C9 counterexample: a well-formed TBS that carries issuerUniqueID and no
`[3]` extensions wrapper makes `list_pre_cert_extensions_der` fail rather
than return the empty OID list. -/
theorem tbs_unique_id_not_empty :
    list_pre_cert_extensions_der tbsWithUniqueIdNoExt = .error .extraData ∧
      list_pre_cert_extensions_der tbsWithUniqueIdNoExt ≠ .ok [] := by
  constructor
  · rfl
  · decide

/-! ### C8: cache value and key round-trip -/

theorem dl_value_roundtrip (leaf extra : List Nat) (h1 : leaf.length < 2 ^ 64)
    (h2 : extra.length < 2 ^ 64) :
    filter_read_value (dl_value leaf extra) = .ok (leaf, extra) := by
  have hv : dl_value leaf extra =
      beBytesFixed 8 leaf.length ++ (leaf ++ (beBytesFixed 8 extra.length ++ extra)) := by
    simp [dl_value, List.append_assoc]
  have hextra : read_exact extra.length extra = .ok (extra, []) := by
    simpa using read_exact_append extra []
  rw [filter_read_value, hv, read_u64be_encode _ _ h1, ebind_ok]
  show (do
      let (leaf2, r2) ← read_exact leaf.length (leaf ++ (beBytesFixed 8 extra.length ++ extra))
      let (extra_len, r3) ← read_u64be r2
      let (extra2, _) ← read_exact extra_len r3
      (.ok (leaf2, extra2) : Except Err (List Nat × List Nat))) = .ok (leaf, extra)
  rw [read_exact_append, ebind_ok]
  show (do
      let (extra_len, r3) ← read_u64be (beBytesFixed 8 extra.length ++ extra)
      let (extra2, _) ← read_exact extra_len r3
      (.ok (leaf, extra2) : Except Err (List Nat × List Nat))) = .ok (leaf, extra)
  rw [read_u64be_encode _ _ h2, ebind_ok]
  show (do
      let (extra2, _) ← read_exact extra.length extra
      (.ok (leaf, extra2) : Except Err (List Nat × List Nat))) = .ok (leaf, extra)
  rw [hextra, ebind_ok]

/-- C8: the value written by the Dl arm (u64-BE leaf length, leaf bytes,
u64-BE extra length, extra bytes) decodes in the Filter arm back to exactly
the same (leaf_input, extra_data) pair, and both arms address entry `i` with
the identical 9-byte key `{1} || u64-BE i`. -/
theorem cache_roundtrip (i : Nat) (leaf extra : List Nat)
    (h1 : leaf.length < 2 ^ 64) (h2 : extra.length < 2 ^ 64) :
    filter_read_value (dl_value leaf extra) = .ok (leaf, extra) ∧
      dl_key i = filter_key i ∧ (dl_key i).length = 9 := by
  refine ⟨dl_value_roundtrip leaf extra h1 h2, rfl, ?_⟩
  simp [dl_key, beBytesFixed_length]

/-- C8 witness: the round-trip and key agreement evaluated at index 7 and a
concrete entry. -/
theorem cache_roundtrip_witness :
    ([1, 2, 3] : List Nat).length < 2 ^ 64 ∧ ([4, 5] : List Nat).length < 2 ^ 64 ∧
      (filter_read_value (dl_value [1, 2, 3] [4, 5]) = .ok ([1, 2, 3], [4, 5]) ∧
        dl_key 7 = filter_key 7 ∧ (dl_key 7).length = 9) :=
  ⟨by decide, by decide, cache_roundtrip 7 [1, 2, 3] [4, 5] (by decide) (by decide)⟩

/-! ### C1: the shape `read_log_entry` accepts for `extra_data` -/

theorem read_chain_certs_encode (chain : List (List Nat)) (r : List Nat)
    (hc : ∀ c ∈ chain, c.length < 2 ^ 24) :
    read_chain_certs chain.length (chainBody chain ++ r) = .ok (chain, r) := by
  induction chain generalizing r with
  | nil => simp [read_chain_certs, chainBody]
  | cons c cs ih =>
      have hb : chainBody (c :: cs) ++ r =
          beBytesFixed 3 c.length ++ (c ++ (chainBody cs ++ r)) := by
        simp [chainBody, List.append_assoc]
      show read_chain_certs (cs.length + 1) (chainBody (c :: cs) ++ r) = _
      rw [read_chain_certs, hb,
        read_u24_encode _ _ (hc c (by simp)), ebind_ok]
      show (do
          let (cert_buf, r2) ← read_exact c.length (c ++ (chainBody cs ++ r))
          let (rest, r3) ← read_chain_certs cs.length r2
          (.ok (cert_buf :: rest, r3) : Except Err (List (List Nat) × List Nat))) = _
      rw [read_exact_append, ebind_ok]
      show (do
          let (rest, r3) ← read_chain_certs cs.length (chainBody cs ++ r)
          (.ok (c :: rest, r3) : Except Err (List (List Nat) × List Nat))) = _
      rw [ih r (fun d hd => hc d (by simp [hd])), ebind_ok]

theorem read_certificate_chain_encode (chain : List (List Nat)) (r : List Nat)
    (hn : chain.length < 2 ^ 24) (hc : ∀ c ∈ chain, c.length < 2 ^ 24) :
    read_certificate_chain (encodeChain chain ++ r) = .ok (chain, r) := by
  have he : encodeChain chain ++ r = beBytesFixed 3 chain.length ++ (chainBody chain ++ r) := by
    simp [encodeChain, List.append_assoc]
  rw [read_certificate_chain, he, read_u24_encode _ _ hn, ebind_ok]
  show read_chain_certs chain.length (chainBody chain ++ r) = _
  exact read_chain_certs_encode chain r hc

/-- C1 counterexample: for an X509 leaf, RFC 6962 `extra_data` is a bare
certificate_chain — `[0,0,0]` is the valid empty chain — yet the Filter
arm's `read_log_entry` rejects it; conversely `read_log_entry` accepts the
same type-prefixed pre-cert-like shape for the X509 tag, the PreCert tag and
unknown tags alike, so decoding does not depend on the leaf's entry_type and
no shape-mismatch error exists. -/
theorem read_log_entry_not_chain_shape :
    read_log_entry [0, 0, 0] = .error .eof ∧
      read_certificate_chain [0, 0, 0] = .ok ([], []) ∧
      read_log_entry (encodeLogEntryBlob 0 [] []) = .ok ⟨.X509Entry, [], []⟩ ∧
      read_log_entry (encodeLogEntryBlob 1 [] []) = .ok ⟨.PrecertEntry, [], []⟩ ∧
      read_log_entry (encodeLogEntryBlob 9 [] []) = .ok ⟨.Other 9, [], []⟩ :=
  ⟨rfl, rfl, rfl, rfl, rfl⟩

/-- C1 (amended): `read_log_entry` decodes `extra_data` with one shape for
every leaf kind — a u16 entry_type tag (values other than 0 and 1 map to
`Other` without an error), a u24-length-prefixed leading blob, then a
certificate_chain — with no selection by the leaf's entry_type and no
mismatch check. -/
theorem read_log_entry_single_shape (t : Nat) (leaf : List Nat) (chain : List (List Nat))
    (ht : t < 65536) (hl : leaf.length < 2 ^ 24) (hn : chain.length < 2 ^ 24)
    (hc : ∀ c ∈ chain, c.length < 2 ^ 24) :
    read_log_entry (encodeLogEntryBlob t leaf chain) =
      .ok ⟨logEntryTypeOfTag t, leaf, chain⟩ := by
  have he : encodeLogEntryBlob t leaf chain =
      beBytesFixed 2 t ++ (beBytesFixed 3 leaf.length ++ (leaf ++ encodeChain chain)) := by
    simp [encodeLogEntryBlob, List.append_assoc]
  rw [read_log_entry, he, read_u16be_encode _ _ ht, ebind_ok]
  show (do
      let (cert_len, r2) ← read_u24 (beBytesFixed 3 leaf.length ++ (leaf ++ encodeChain chain))
      let (pre_cert_buf, r3) ← read_exact cert_len r2
      let (chain2, _) ← read_certificate_chain r3
      (.ok ⟨logEntryTypeOfTag t, pre_cert_buf, chain2⟩ : Except Err LogEntry)) = _
  rw [read_u24_encode _ _ hl, ebind_ok]
  show (do
      let (pre_cert_buf, r3) ← read_exact leaf.length (leaf ++ encodeChain chain)
      let (chain2, _) ← read_certificate_chain r3
      (.ok ⟨logEntryTypeOfTag t, pre_cert_buf, chain2⟩ : Except Err LogEntry)) = _
  rw [read_exact_append, ebind_ok]
  show (do
      let (chain2, _) ← read_certificate_chain (encodeChain chain)
      (.ok ⟨logEntryTypeOfTag t, leaf, chain2⟩ : Except Err LogEntry)) = _
  have hcc := read_certificate_chain_encode chain [] hn hc
  rw [show encodeChain chain = encodeChain chain ++ [] from (List.append_nil _).symm,
    hcc, ebind_ok]

/-- C1 witness: the single-shape theorem applied at an unknown entry tag. -/
theorem read_log_entry_single_shape_witness :
    (9 : Nat) < 65536 ∧ ([5] : List Nat).length < 2 ^ 24 ∧
      ([[3, 4]] : List (List Nat)).length < 2 ^ 24 ∧
      read_log_entry (encodeLogEntryBlob 9 [5] [[3, 4]]) =
        .ok ⟨.Other 9, [5], [[3, 4]]⟩ :=
  ⟨by decide, by decide, by decide,
    read_log_entry_single_shape 9 [5] [[3, 4]] (by decide) (by decide) (by decide)
      (by decide)⟩

/-! ### C5: leaf-policy error characterisation -/

theorem beVal_pair (a b : Nat) : beVal [a, b] = 256 * a + b := by
  simp [beVal]
  ring

theorem parse_version_pos (v : Nat) (rest : List Nat) (h : v ≠ 0) :
    parse_timestamped_entry (v :: rest) = .error (.unsupportedVersion v) := by
  cases v with
  | zero => exact absurd rfl h
  | succ n => rfl

theorem parse_leaf_type_pos (t : Nat) (rest : List Nat) (h : t ≠ 0) :
    parse_timestamped_entry (0 :: t :: rest) = .error (.unsupportedLeafType t) := by
  cases t with
  | zero => exact absurd rfl h
  | succ n => rfl

theorem u24_read_tail_result (l : List Nat) (f : List Nat → TimestampedEntry) (e : Err)
    (he : (do
        let (n, r1) ← read_u24 l
        let (d, _) ← read_exact n r1
        (.ok (f d) : Except Err TimestampedEntry)) = .error e) :
    e = .eof := by
  rcases l with _ | ⟨a, l⟩
  · exact (Except.error.inj he).symm
  rcases l with _ | ⟨b, l⟩
  · exact (Except.error.inj he).symm
  rcases l with _ | ⟨c, l⟩
  · exact (Except.error.inj he).symm
  · have h1 : (do
        let (n, r1) ← read_u24 (a :: b :: c :: l)
        let (d, _) ← read_exact n r1
        (.ok (f d) : Except Err TimestampedEntry)) = (do
        let (d, _) ← read_exact (a * 65536 + b * 256 + c) l
        (.ok (f d) : Except Err TimestampedEntry)) := rfl
    rw [h1] at he
    by_cases hx : a * 65536 + b * 256 + c ≤ l.length
    · rw [read_exact_of_le hx] at he
      exact absurd he (fun hc => Except.noConfusion hc)
    · rw [read_exact_of_lt (by omega)] at he
      exact (Except.error.inj he).symm

theorem precert_tail_result (l : List Nat) (ts : Nat) (e : Err)
    (he : (do
        let (ikh, r5) ← read_exact 32 l
        let (n, r6) ← read_u24 r5
        let (d, _) ← read_exact n r6
        (.ok ⟨ts, .PrecertEntry ikh d⟩ : Except Err TimestampedEntry)) = .error e) :
    e = .eof := by
  by_cases h32 : 32 ≤ l.length
  · rw [read_exact_of_le h32] at he
    exact u24_read_tail_result (l.drop 32) (fun d => ⟨ts, .PrecertEntry (l.take 32) d⟩) e he
  · rw [read_exact_of_lt (by omega)] at he
    exact (Except.error.inj he).symm

theorem read_u64be_cons8 (c1 c2 c3 c4 c5 c6 c7 c8 : Nat) (r : List Nat) :
    read_u64be (c1 :: c2 :: c3 :: c4 :: c5 :: c6 :: c7 :: c8 :: r) =
      .ok (beVal [c1, c2, c3, c4, c5, c6, c7, c8], r) := by
  rw [read_u64be, read_exact_of_le (by simp only [List.length_cons]; omega)]
  rfl

theorem read_u16be_cons2 (a b : Nat) (r : List Nat) :
    read_u16be (a :: b :: r) = .ok (beVal [a, b], r) := by
  rw [read_u16be, read_exact_of_le (by simp only [List.length_cons]; omega)]
  rfl

theorem parse_cons12 (c1 c2 c3 c4 c5 c6 c7 c8 ca cb : Nat) (rest : List Nat) :
    parse_timestamped_entry
        (0 :: 0 :: c1 :: c2 :: c3 :: c4 :: c5 :: c6 :: c7 :: c8 :: ca :: cb :: rest) =
      parse_entry_body (beVal [ca, cb]) (beVal [c1, c2, c3, c4, c5, c6, c7, c8]) rest := by
  show (do
      let (timestamp, r3) ← read_u64be
        (c1 :: c2 :: c3 :: c4 :: c5 :: c6 :: c7 :: c8 :: ca :: cb :: rest)
      let (entry_type, r4) ← read_u16be r3
      parse_entry_body entry_type timestamp r4) = _
  rw [read_u64be_cons8, ebind_ok]
  show (do
      let (entry_type, r4) ← read_u16be (ca :: cb :: rest)
      parse_entry_body entry_type (beVal [c1, c2, c3, c4, c5, c6, c7, c8]) r4) = _
  rw [read_u16be_cons2, ebind_ok]

/-- C5: for every input buffer, `parse_timestamped_entry` fails with a
leaf-policy error (UnsupportedLeaf for a nonzero version or leaf_type byte,
UnknownEntryType otherwise) exactly when the first byte is nonzero, or the
second byte is nonzero, or the big-endian u16 entry_type at offsets 10 and 11
exists and is neither 0 nor 1; in particular any leaf_input starting with
version byte 1 fails with UnsupportedLeaf. -/
theorem parse_leaf_policy_iff (buf : List Nat) :
    ((∃ e, parse_timestamped_entry buf = .error e ∧ isLeafPolicyErr e = true) ↔
      ((∃ v, buf[0]? = some v ∧ v ≠ 0) ∨
       (buf[0]? = some 0 ∧ ∃ t, buf[1]? = some t ∧ t ≠ 0) ∨
       (buf[0]? = some 0 ∧ buf[1]? = some 0 ∧
         ∃ a b, buf[10]? = some a ∧ buf[11]? = some b ∧
           256 * a + b ≠ 0 ∧ 256 * a + b ≠ 1))) ∧
      (buf[0]? = some 1 → parse_timestamped_entry buf = .error (.unsupportedVersion 1)) := by
  have hver1 : buf[0]? = some 1 →
      parse_timestamped_entry buf = .error (.unsupportedVersion 1) := by
    intro h
    rcases buf with _ | ⟨b0, rest⟩
    · simp at h
    · have hb : b0 = 1 := by simpa using h
      subst hb
      exact parse_version_pos 1 rest one_ne_zero
  refine ⟨?_, hver1⟩
  clear hver1
  rcases buf with _ | ⟨b0, buf⟩
  · constructor
    · rintro ⟨e, he, hpol⟩
      have he2 : (.error .eof : Except Err TimestampedEntry) = .error e := he
      cases Except.error.inj he2
      exact absurd hpol (by decide)
    · rintro (⟨v, hv, hne⟩ | ⟨hv, t, ht, hne⟩ | ⟨hv0, hv1, va, vb, ha, hb, hn0, hn1⟩)
      · simp at hv
      · simp at hv
      · simp at hv0
  · by_cases h0 : b0 = 0
    case neg =>
      have hp := parse_version_pos b0 buf h0
      constructor
      · intro _
        exact Or.inl ⟨b0, by simp, h0⟩
      · intro _
        exact ⟨.unsupportedVersion b0, hp, rfl⟩
    case pos =>
      subst h0
      rcases buf with _ | ⟨b1, buf⟩
      · constructor
        · rintro ⟨e, he, hpol⟩
          have he2 : (.error .eof : Except Err TimestampedEntry) = .error e := he
          cases Except.error.inj he2
          exact absurd hpol (by decide)
        · rintro (⟨v, hv, hne⟩ | ⟨hv, t, ht, hne⟩ | ⟨hv0, hv1, va, vb, ha, hb, hn0, hn1⟩)
          · simp at hv
            omega
          · simp at ht
          · simp at ha
      · by_cases h1 : b1 = 0
        case neg =>
          have hp := parse_leaf_type_pos b1 buf h1
          constructor
          · intro _
            exact Or.inr (Or.inl ⟨by simp, b1, by simp, h1⟩)
          · intro _
            exact ⟨.unsupportedLeafType b1, hp, rfl⟩
        case pos =>
          subst h1
          rcases buf with _ | ⟨c1, buf⟩
          · constructor
            · rintro ⟨e, he, hpol⟩
              have he2 : (.error .eof : Except Err TimestampedEntry) = .error e := he
              cases Except.error.inj he2
              exact absurd hpol (by decide)
            · rintro (⟨v, hv, hne⟩ | ⟨hv, t, ht, hne⟩ | ⟨hv0, hv1, va, vb, ha, hb, hn0, hn1⟩)
              · simp at hv
                omega
              · simp at ht
                omega
              · simp at ha hb
          rcases buf with _ | ⟨c2, buf⟩
          · constructor
            · rintro ⟨e, he, hpol⟩
              have he2 : (.error .eof : Except Err TimestampedEntry) = .error e := he
              cases Except.error.inj he2
              exact absurd hpol (by decide)
            · rintro (⟨v, hv, hne⟩ | ⟨hv, t, ht, hne⟩ | ⟨hv0, hv1, va, vb, ha, hb, hn0, hn1⟩)
              · simp at hv
                omega
              · simp at ht
                omega
              · simp at ha hb
          rcases buf with _ | ⟨c3, buf⟩
          · constructor
            · rintro ⟨e, he, hpol⟩
              have he2 : (.error .eof : Except Err TimestampedEntry) = .error e := he
              cases Except.error.inj he2
              exact absurd hpol (by decide)
            · rintro (⟨v, hv, hne⟩ | ⟨hv, t, ht, hne⟩ | ⟨hv0, hv1, va, vb, ha, hb, hn0, hn1⟩)
              · simp at hv
                omega
              · simp at ht
                omega
              · simp at ha hb
          rcases buf with _ | ⟨c4, buf⟩
          · constructor
            · rintro ⟨e, he, hpol⟩
              have he2 : (.error .eof : Except Err TimestampedEntry) = .error e := he
              cases Except.error.inj he2
              exact absurd hpol (by decide)
            · rintro (⟨v, hv, hne⟩ | ⟨hv, t, ht, hne⟩ | ⟨hv0, hv1, va, vb, ha, hb, hn0, hn1⟩)
              · simp at hv
                omega
              · simp at ht
                omega
              · simp at ha hb
          rcases buf with _ | ⟨c5, buf⟩
          · constructor
            · rintro ⟨e, he, hpol⟩
              have he2 : (.error .eof : Except Err TimestampedEntry) = .error e := he
              cases Except.error.inj he2
              exact absurd hpol (by decide)
            · rintro (⟨v, hv, hne⟩ | ⟨hv, t, ht, hne⟩ | ⟨hv0, hv1, va, vb, ha, hb, hn0, hn1⟩)
              · simp at hv
                omega
              · simp at ht
                omega
              · simp at ha hb
          rcases buf with _ | ⟨c6, buf⟩
          · constructor
            · rintro ⟨e, he, hpol⟩
              have he2 : (.error .eof : Except Err TimestampedEntry) = .error e := he
              cases Except.error.inj he2
              exact absurd hpol (by decide)
            · rintro (⟨v, hv, hne⟩ | ⟨hv, t, ht, hne⟩ | ⟨hv0, hv1, va, vb, ha, hb, hn0, hn1⟩)
              · simp at hv
                omega
              · simp at ht
                omega
              · simp at ha hb
          rcases buf with _ | ⟨c7, buf⟩
          · constructor
            · rintro ⟨e, he, hpol⟩
              have he2 : (.error .eof : Except Err TimestampedEntry) = .error e := he
              cases Except.error.inj he2
              exact absurd hpol (by decide)
            · rintro (⟨v, hv, hne⟩ | ⟨hv, t, ht, hne⟩ | ⟨hv0, hv1, va, vb, ha, hb, hn0, hn1⟩)
              · simp at hv
                omega
              · simp at ht
                omega
              · simp at ha hb
          rcases buf with _ | ⟨c8, buf⟩
          · constructor
            · rintro ⟨e, he, hpol⟩
              have he2 : (.error .eof : Except Err TimestampedEntry) = .error e := he
              cases Except.error.inj he2
              exact absurd hpol (by decide)
            · rintro (⟨v, hv, hne⟩ | ⟨hv, t, ht, hne⟩ | ⟨hv0, hv1, va, vb, ha, hb, hn0, hn1⟩)
              · simp at hv
                omega
              · simp at ht
                omega
              · simp at ha hb
          rcases buf with _ | ⟨ca, buf⟩
          · constructor
            · rintro ⟨e, he, hpol⟩
              have he2 : (.error .eof : Except Err TimestampedEntry) = .error e := he
              cases Except.error.inj he2
              exact absurd hpol (by decide)
            · rintro (⟨v, hv, hne⟩ | ⟨hv, t, ht, hne⟩ | ⟨hv0, hv1, va, vb, ha, hb, hn0, hn1⟩)
              · simp at hv
                omega
              · simp at ht
                omega
              · simp at ha hb
          rcases buf with _ | ⟨cb, rest⟩
          · constructor
            · rintro ⟨e, he, hpol⟩
              have he2 : (.error .eof : Except Err TimestampedEntry) = .error e := he
              cases Except.error.inj he2
              exact absurd hpol (by decide)
            · rintro (⟨v, hv, hne⟩ | ⟨hv, t, ht, hne⟩ | ⟨hv0, hv1, va, vb, ha, hb, hn0, hn1⟩)
              · simp at hv
                omega
              · simp at ht
                omega
              · simp at ha hb
          · have hps := parse_cons12 c1 c2 c3 c4 c5 c6 c7 c8 ca cb rest
            rw [hps, beVal_pair ca cb]
            cases het : 256 * ca + cb with
            | zero =>
                constructor
                · rintro ⟨e, he, hpol⟩
                  have he2 : (do
                      let (n, r5) ← read_u24 rest
                      let (d, _) ← read_exact n r5
                      (.ok ⟨beVal [c1, c2, c3, c4, c5, c6, c7, c8], .X509Entry d⟩ :
                        Except Err TimestampedEntry)) = .error e := he
                  have hee := u24_read_tail_result rest
                    (fun d => ⟨beVal [c1, c2, c3, c4, c5, c6, c7, c8], .X509Entry d⟩) e he2
                  subst hee
                  exact absurd hpol (by decide)
                · rintro (⟨v, hv, hne⟩ | ⟨hv, t, ht, hne⟩ |
                    ⟨hv0, hv1, va, vb, ha, hb, hn0, hn1⟩)
                  · simp at hv
                    omega
                  · simp at ht
                    omega
                  · simp at ha hb
                    omega
            | succ m =>
                cases m with
                | zero =>
                    constructor
                    · rintro ⟨e, he, hpol⟩
                      have he2 : (do
                          let (ikh, r5) ← read_exact 32 rest
                          let (n, r6) ← read_u24 r5
                          let (d, _) ← read_exact n r6
                          (.ok ⟨beVal [c1, c2, c3, c4, c5, c6, c7, c8], .PrecertEntry ikh d⟩ :
                            Except Err TimestampedEntry)) = .error e := he
                      have hee := precert_tail_result rest
                        (beVal [c1, c2, c3, c4, c5, c6, c7, c8]) e he2
                      subst hee
                      exact absurd hpol (by decide)
                    · rintro (⟨v, hv, hne⟩ | ⟨hv, t, ht, hne⟩ |
                        ⟨hv0, hv1, va, vb, ha, hb, hn0, hn1⟩)
                      · simp at hv
                        omega
                      · simp at ht
                        omega
                      · simp at ha hb
                        omega
                | succ n =>
                    constructor
                    · intro _
                      refine Or.inr (Or.inr ⟨by simp, by simp, ca, cb, by simp, by simp, ?_, ?_⟩)
                      · omega
                      · omega
                    · intro _
                      exact ⟨.unknownEntryType (n + 2), rfl, rfl⟩

/-! ### The download loop: stepping lemmas and trace invariants -/

theorem dl_loop_zero_fuel {σ : Type} (serve : Nat → Nat → Nat → List RawEntry)
    (sink : σ → Nat → List RawEntry → Except Err σ) (op_end k start smallest : Nat)
    (st : σ) :
    dl_loop serve sink op_end 0 k start smallest st =
      if start < op_end then (st, some .loopFuel) else (st, none) := by
  rw [dl_loop]

theorem dl_loop_step {σ : Type} (serve : Nat → Nat → Nat → List RawEntry)
    (sink : σ → Nat → List RawEntry → Except Err σ) (op_end fuel k start smallest : Nat)
    (st : σ) (h : start < op_end) :
    dl_loop serve sink op_end (fuel + 1) k start smallest st =
      (match sink st start (serve k start (min op_end (start + smallest - 1) + 1 - start)) with
       | .error e => (st, some e)
       | .ok st2 =>
         if (serve k start (min op_end (start + smallest - 1) + 1 - start)).length = 0 then
           (st2, some .emptyBatch)
         else
           dl_loop serve sink op_end fuel (k + 1)
             (start + (serve k start (min op_end (start + smallest - 1) + 1 - start)).length)
             (min 30 (serve k start (min op_end (start + smallest - 1) + 1 - start)).length)
             st2) := by
  rw [dl_loop, if_pos h]

theorem dl_loop_trace_no_zero (serve : Nat → Nat → Nat → List RawEntry) (op_end : Nat) :
    ∀ (fuel k start smallest : Nat) (acc tr : List (Nat × Nat)),
      dl_loop serve traceSink op_end fuel k start smallest acc = (tr, none) →
      (∀ p ∈ acc, p.2 ≠ 0) → ∀ p ∈ tr, p.2 ≠ 0 := by
  intro fuel
  induction fuel with
  | zero =>
      intro k start smallest acc tr hrun hacc
      rw [dl_loop_zero_fuel] at hrun
      by_cases h : start < op_end
      · rw [if_pos h] at hrun
        simp at hrun
      · rw [if_neg h] at hrun
        injection hrun with h1 h2
        subst h1
        exact hacc
  | succ fuel ih =>
      intro k start smallest acc tr hrun hacc
      by_cases h : start < op_end
      · rw [dl_loop_step serve traceSink op_end fuel k start smallest acc h] at hrun
        simp only [traceSink] at hrun
        by_cases hz :
            (serve k start (min op_end (start + smallest - 1) + 1 - start)).length = 0
        · rw [if_pos hz] at hrun
          simp at hrun
        · rw [if_neg hz] at hrun
          refine ih _ _ _ _ _ hrun ?_
          intro p hp
          rcases List.mem_append.mp hp with hp | hp
          · exact hacc p hp
          · simp only [List.mem_singleton] at hp
            rw [hp]
            exact hz
      · rw [dl_loop, if_neg h] at hrun
        injection hrun with h1 h2
        subst h1
        exact hacc

theorem chainedFrom_batchIndices :
    ∀ (tr : List (Nat × Nat)) (s : Nat), chainedFrom s tr →
      batchIndices tr = List.range' s (sumCounts tr) := by
  intro tr
  induction tr with
  | nil => intro s _; rfl
  | cons p tr ih =>
      intro s hch
      obtain ⟨bs, n⟩ := p
      obtain ⟨rfl, hn, hch⟩ := hch
      show List.range' bs n ++ batchIndices tr = _
      rw [ih (bs + n) hch]
      rw [List.range'_append_1 bs n (sumCounts tr)]
      have hs : sumCounts ((bs, n) :: tr) = n + sumCounts tr := by
        simp [sumCounts]
      rw [hs, Nat.add_comm n (sumCounts tr)]

theorem dl_loop_trace_spec (serve : Nat → Nat → Nat → List RawEntry) (op_end : Nat) :
    ∀ (fuel k start smallest : Nat) (acc tr : List (Nat × Nat)),
      dl_loop serve traceSink op_end fuel k start smallest acc = (tr, none) →
      ∃ suf, tr = acc ++ suf ∧ chainedFrom start suf ∧
        op_end ≤ start + sumCounts suf ∧ (start < op_end → suf ≠ []) := by
  intro fuel
  induction fuel with
  | zero =>
      intro k start smallest acc tr hrun
      rw [dl_loop_zero_fuel] at hrun
      by_cases h : start < op_end
      · rw [if_pos h] at hrun
        simp at hrun
      · rw [if_neg h] at hrun
        injection hrun with h1 h2
        subst h1
        refine ⟨[], (List.append_nil acc).symm, trivial, ?_, fun hlt => absurd hlt h⟩
        have := Nat.le_of_not_lt h
        simp [sumCounts]
        omega
  | succ fuel ih =>
      intro k start smallest acc tr hrun
      by_cases h : start < op_end
      · rw [dl_loop_step serve traceSink op_end fuel k start smallest acc h] at hrun
        simp only [traceSink] at hrun
        set N := (serve k start (min op_end (start + smallest - 1) + 1 - start)).length
          with hN
        by_cases hz : N = 0
        · rw [if_pos hz] at hrun
          simp at hrun
        · rw [if_neg hz] at hrun
          obtain ⟨suf, htr, hch, hle, -⟩ := ih _ _ _ _ _ hrun
          refine ⟨(start, N) :: suf, ?_, ⟨rfl, by omega, hch⟩, ?_, by simp⟩
          · rw [htr]
            simp [List.append_assoc]
          · have hsc : sumCounts ((start, N) :: suf) = N + sumCounts suf := by
              simp [sumCounts]
            rw [hsc]
            omega
      · rw [dl_loop, if_neg h] at hrun
        injection hrun with h1 h2
        subst h1
        refine ⟨[], (List.append_nil acc).symm, trivial, ?_, fun hlt => absurd hlt h⟩
        have := Nat.le_of_not_lt h
        simp [sumCounts]
        omega

/-! ### C3: empty batches -/

/-- C3 counterexample: against the 30,30,0 mock server, `dl_range` over
`[0,60]` succeeds after two requests — the loop condition `start < op_end`
is strict, so the third request (which would return zero entries) is never
made — instead of failing with EmptyBatch as claimed. -/
theorem dl_range_0_60_succeeds :
    dl_trace (mockServe counts303000) 0 60 = ([(0, 30), (30, 30)], none) ∧
      (dl_trace (mockServe counts303000) 0 60).2 ≠ some .emptyBatch :=
  ⟨by decide, by decide⟩

/-- C3 (amended): against the 30,30,0 mock, `[0,59]` succeeds after two
requests; `[0,61]` makes a third request, whose zero-entry result fails the
run with EmptyBatch (the sink having been called three times); and in
general a request that returns zero entries always ends the run with
EmptyBatch, so a successful trace never contains a zero-count batch. -/
theorem dl_range_empty_batch :
    dl_trace (mockServe counts303000) 0 59 = ([(0, 30), (30, 30)], none) ∧
      dl_trace (mockServe counts303000) 0 61 =
        ([(0, 30), (30, 30), (60, 0)], some .emptyBatch) ∧
      ∀ (serve : Nat → Nat → Nat → List RawEntry) (s e : Nat) (tr : List (Nat × Nat)),
        dl_trace serve s e = (tr, none) → ∀ p ∈ tr, p.2 ≠ 0 := by
  refine ⟨by decide, by decide, ?_⟩
  intro serve s e tr hrun p hp
  rw [dl_trace, dl_range] at hrun
  by_cases h : e < s
  · rw [if_pos h] at hrun
    simp at hrun
  · rw [if_neg h] at hrun
    exact dl_loop_trace_no_zero serve e _ _ _ _ _ _ hrun (by simp) p hp

/-- C3 witness: the no-zero-batch consequence applied to the successful
`[0,59]` run. -/
theorem dl_range_empty_batch_witness :
    dl_trace (mockServe counts303000) 0 59 = ([(0, 30), (30, 30)], none) ∧
      ((0, 30) : Nat × Nat).2 ≠ 0 :=
  ⟨by decide,
    dl_range_empty_batch.2.2 (mockServe counts303000) 0 59 [(0, 30), (30, 30)]
      (by decide) (0, 30) (by decide)⟩

/-! ### C6: batch monotonicity -/

/-- C6 counterexample: a successful run over `[0,60]` against a server that
returns exactly the requested batches covers only the indices 0..59; index
60 is not covered, so the batches do not cover any interval `[0, e]` with
`e ≥ 60` as claimed. -/
theorem dl_trace_not_covering_end :
    dl_trace (fullServe (fun _ => ([], []))) 0 60 = ([(0, 30), (30, 30)], none) ∧
      (60 : Nat) ∉ batchIndices [(0, 30), (30, 30)] :=
  ⟨by decide, by decide⟩

/-- C6 (amended): after every successful `dl_range` over `[start, end]` with
`start < end`, the trace of sink invocations is non-empty and contiguous
from `start` with positive counts — each batch_start equals the previous
batch_start plus the previous count, so batch starts strictly increase —
its batches cover exactly the indices `start..start+total-1`, each exactly
once and in order, and `end ≤ start + total`: the covered interval ends at
`end' = start + total - 1 ≥ end - 1`, which may fall short of covering
index `end` itself. -/
theorem dl_trace_monotone (serve : Nat → Nat → Nat → List RawEntry) (s e : Nat)
    (tr : List (Nat × Nat)) (hlt : s < e) (hrun : dl_trace serve s e = (tr, none)) :
    tr ≠ [] ∧ chainedFrom s tr ∧
      batchIndices tr = List.range' s (sumCounts tr) ∧ e ≤ s + sumCounts tr := by
  rw [dl_trace, dl_range, if_neg (by omega)] at hrun
  obtain ⟨suf, htr, hch, hle, hne⟩ := dl_loop_trace_spec serve e _ _ _ _ _ _ hrun
  simp only [List.nil_append] at htr
  subst htr
  exact ⟨hne hlt, hch, chainedFrom_batchIndices _ _ hch, hle⟩

/-- C6 witness: the monotonicity theorem applied to the `[0,60]` run of a
request-exactly server. -/
theorem dl_trace_monotone_witness :
    (0 : Nat) < 60 ∧
      (([(0, 30), (30, 30)] : List (Nat × Nat)) ≠ [] ∧
        chainedFrom 0 [(0, 30), (30, 30)] ∧
        batchIndices [(0, 30), (30, 30)] = List.range' 0 (sumCounts [(0, 30), (30, 30)]) ∧
        60 ≤ 0 + sumCounts [(0, 30), (30, 30)]) :=
  ⟨by decide,
    dl_trace_monotone (fullServe (fun _ => ([], []))) 0 60 [(0, 30), (30, 30)]
      (by decide) (by decide)⟩

/-- C5 witness: the characterisation applied to the version=1 leaf `[1]`. -/
theorem parse_leaf_policy_iff_witness :
    ([1] : List Nat)[0]? = some 1 ∧
      parse_timestamped_entry [1] = .error (.unsupportedVersion 1) :=
  ⟨by decide, (parse_leaf_policy_iff [1]).2 (by decide)⟩

/-! ### C10: the unchecked subtraction and the two arms' guards -/

/-- C10: `dl_range` computes its initial batch size from the u64 subtraction
`op_end - op_start`; for `op_start ≤ op_end` the exact difference is
non-negative (no underflow), while for `op_start > op_end` it is negative —
the u64 subtraction underflows. The Scan arm guards with its explicit
`start > end` bail before reaching `dl_range`; the Dl arm has no such check
and reaches the underflowing subtraction. -/
theorem dl_range_underflow_guard (serve : Nat → Nat → Nat → List RawEntry) (s e : Nat) :
    (s ≤ e → ¬ u64SubUnderflows s e) ∧
      (e < s → u64SubUnderflows s e) ∧
      (e < s → scan_mode serve s e = ([], some .startAfterEnd)) ∧
      (e < s → dl_mode serve s e = ([], some .subUnderflow)) := by
  refine ⟨?_, ?_, ?_, ?_⟩
  · intro h hc
    simp only [u64SubUnderflows, dlRangeSub] at hc
    omega
  · intro h
    simp only [u64SubUnderflows, dlRangeSub]
    omega
  · intro h
    rw [scan_mode, if_pos h]
  · intro h
    rw [dl_mode, dl_range, if_pos h]

/-- C10 witness: the guard facts evaluated at `[2,4]` and at the reversed
range `[5,3]`. -/
theorem dl_range_underflow_guard_witness :
    ((2 : Nat) ≤ 4 ∧ ¬ u64SubUnderflows 2 4) ∧
      ((3 : Nat) < 5 ∧ u64SubUnderflows 5 3 ∧
        scan_mode (mockServe counts303000) 5 3 = ([], some .startAfterEnd) ∧
        dl_mode (mockServe counts303000) 5 3 = ([], some .subUnderflow)) :=
  ⟨⟨by decide, (dl_range_underflow_guard (mockServe counts303000) 2 4).1 (by decide)⟩,
   ⟨by decide, (dl_range_underflow_guard (mockServe counts303000) 5 3).2.1 (by decide),
    (dl_range_underflow_guard (mockServe counts303000) 5 3).2.2.1 (by decide),
    (dl_range_underflow_guard (mockServe counts303000) 5 3).2.2.2 (by decide)⟩⟩

/-! ### DER encoding and prefix lemmas -/

theorem beVal_beBytesMin (n : Nat) : beVal (beBytesMin n) = n := by
  induction n using Nat.strong_induction_on with
  | _ n ih =>
      rw [beBytesMin]
      by_cases h : n < 256
      · rw [dif_pos h]
        simp [beVal]
      · rw [dif_neg h]
        rw [beVal_append_one, ih (n / 256) (Nat.div_lt_self (by omega) (by omega))]
        omega

theorem beBytesMin_ne_nil (n : Nat) : beBytesMin n ≠ [] := by
  rw [beBytesMin]
  by_cases h : n < 256
  · rw [dif_pos h]
    simp
  · rw [dif_neg h]
    simp

theorem beBytesMin_headD_pos (n : Nat) (hn : n ≠ 0) : (beBytesMin n).headD 0 ≠ 0 := by
  induction n using Nat.strong_induction_on with
  | _ n ih =>
      rw [beBytesMin]
      by_cases h : n < 256
      · rw [dif_pos h]
        simpa using hn
      · rw [dif_neg h]
        rcases hh : beBytesMin (n / 256) with _ | ⟨x, xs⟩
        · exact absurd hh (beBytesMin_ne_nil (n / 256))
        · simp only [List.cons_append, List.headD_cons]
          have hx := ih (n / 256) (Nat.div_lt_self (by omega) (by omega)) (by omega)
          rw [hh] at hx
          simpa using hx

theorem derHeader_cons (t b : Nat) (r2 : List Nat) :
    derHeader (t :: b :: r2) =
      if t % 32 = 31 then .error .badTag
      else if b < 128 then .ok (2, b)
      else if b - 128 = 0 then .error .badLen
      else if r2.length < b - 128 then .error .eof
      else if (r2.take (b - 128)).headD 0 = 0 ∨ beVal (r2.take (b - 128)) < 128 then
        .error .badLen
      else .ok (2 + (b - 128), beVal (r2.take (b - 128))) := by
  rw [derHeader]

theorem derHeader_short (t n : Nat) (rest : List Nat) (ht : ¬ t % 32 = 31)
    (hn : n < 128) :
    derHeader (t :: n :: rest) = .ok (2, n) := by
  rw [derHeader_cons, if_neg ht, if_pos hn]

theorem derHeader_long (t n : Nat) (r : List Nat) (ht : ¬ t % 32 = 31) (hn : 128 ≤ n) :
    derHeader (t :: (128 + (beBytesMin n).length) :: (beBytesMin n ++ r)) =
      .ok (2 + (beBytesMin n).length, n) := by
  have hl : 0 < (beBytesMin n).length := List.length_pos.mpr (beBytesMin_ne_nil n)
  have hm : 128 + (beBytesMin n).length - 128 = (beBytesMin n).length := by omega
  have hh := beBytesMin_headD_pos n (by omega)
  have hcond : ¬ ((beBytesMin n).headD 0 = 0 ∨ n < 128) := by
    push_neg
    exact ⟨hh, by omega⟩
  rw [derHeader_cons, if_neg ht, if_neg (by omega), hm,
    if_neg (show ¬ (beBytesMin n ++ r).length < (beBytesMin n).length by
      simp only [List.length_append]
      omega),
    List.take_left, beVal_beBytesMin, if_neg hcond]
  rw [if_neg (show ¬ (beBytesMin n).length = 0 by omega)]

theorem derBlob_length (t : Nat) (c : List Nat) :
    (derBlob t c).length = 1 + (derLen c.length).length + c.length := by
  simp only [derBlob, List.length_cons, List.length_append]
  omega

theorem derHeader_derBlob_append (t : Nat) (c r : List Nat) (ht : ¬ t % 32 = 31) :
    derHeader (derBlob t c ++ r) = .ok (1 + (derLen c.length).length, c.length) := by
  rw [derBlob, derLen]
  by_cases h : c.length < 128
  · rw [if_pos h]
    simp only [List.cons_append, List.singleton_append, List.nil_append]
    rw [derHeader_short t c.length (c ++ r) ht h]
    simp
  · rw [if_neg h]
    simp only [List.cons_append, List.append_assoc]
    rw [derHeader_long t c.length (c ++ r) ht (by omega)]
    have hlen : 2 + (beBytesMin c.length).length =
        1 + ((128 + (beBytesMin c.length).length) :: beBytesMin c.length).length := by
      simp only [List.length_cons]
      omega
    rw [hlen]

theorem derSize_derBlob_append (t : Nat) (c r : List Nat) (ht : ¬ t % 32 = 31) :
    derSize (derBlob t c ++ r) = .ok (derBlob t c).length := by
  rw [derSize, derHeader_derBlob_append t c r ht]
  simp only [ebind_ok]
  rw [if_pos (by rw [List.length_append, derBlob_length]; omega)]
  rw [derBlob_length]

theorem derContent_derBlob_append (t : Nat) (c r : List Nat) (ht : ¬ t % 32 = 31) :
    derContent (derBlob t c ++ r) = .ok (t, c) := by
  rw [derContent, derHeader_derBlob_append t c r ht]
  simp only [ebind_ok]
  rw [if_pos (by rw [List.length_append, derBlob_length]; omega)]
  have h1 : (derBlob t c ++ r).headD 0 = t := by
    simp [derBlob]
  have h2 : ((derBlob t c ++ r).drop (1 + (derLen c.length).length)).take c.length = c := by
    rw [derBlob]
    simp only [List.cons_append, List.append_assoc]
    rw [Nat.add_comm 1 (derLen c.length).length, List.drop_succ_cons, List.drop_left,
      List.take_left]
  rw [h1, h2]

theorem readTaggedContent_derBlob_append (t : Nat) (c r : List Nat) (ht : ¬ t % 32 = 31) :
    readTaggedContent t (derBlob t c ++ r) = .ok (c, r) := by
  rw [readTaggedContent, derContent_derBlob_append t c r ht]
  simp only [ebind_ok, if_true]
  rw [derSize_derBlob_append t c r ht]
  simp only [ebind_ok]
  rw [List.drop_left]

theorem derHeader_prefix (f r : List Nat) (h c : Nat) (hd : derHeader f = .ok (h, c)) :
    derHeader (f ++ r) = .ok (h, c) := by
  rcases f with _ | ⟨t, rest⟩
  · rw [derHeader] at hd
    exact absurd hd (fun hh => Except.noConfusion hh)
  rcases rest with _ | ⟨b, r2⟩
  · by_cases ht : t % 32 = 31
    · rw [derHeader, if_pos ht] at hd
      exact absurd hd (fun hh => Except.noConfusion hh)
    · rw [derHeader, if_neg ht] at hd
      exact absurd hd (fun hh => Except.noConfusion hh)
  · rw [derHeader_cons] at hd
    rw [List.cons_append, List.cons_append, derHeader_cons]
    by_cases ht : t % 32 = 31
    · rw [if_pos ht] at hd
      exact absurd hd (fun hh => Except.noConfusion hh)
    rw [if_neg ht] at hd
    rw [if_neg ht]
    by_cases hb : b < 128
    · rw [if_pos hb] at hd ⊢
      exact hd
    rw [if_neg hb] at hd ⊢
    by_cases hm : b - 128 = 0
    · rw [if_pos hm] at hd
      exact absurd hd (fun hh => Except.noConfusion hh)
    rw [if_neg hm] at hd ⊢
    by_cases hr : r2.length < b - 128
    · rw [if_pos hr] at hd
      exact absurd hd (fun hh => Except.noConfusion hh)
    rw [if_neg hr] at hd
    rw [if_neg (show ¬ (r2 ++ r).length < b - 128 by
      simp only [List.length_append]
      omega)]
    have htake : (r2 ++ r).take (b - 128) = r2.take (b - 128) :=
      List.take_append_of_le_length (by omega)
    rw [htake]
    by_cases hbad : (r2.take (b - 128)).headD 0 = 0 ∨ beVal (r2.take (b - 128)) < 128
    · rw [if_pos hbad] at hd
      exact absurd hd (fun hh => Except.noConfusion hh)
    · rw [if_neg hbad] at hd ⊢
      exact hd

theorem derSize_prefix (f r : List Nat) (hs : derSize f = .ok f.length) :
    derSize (f ++ r) = .ok f.length := by
  rw [derSize] at hs
  cases hd : derHeader f with
  | error e =>
      rw [hd] at hs
      exact absurd hs (fun hh => Except.noConfusion hh)
  | ok p =>
      obtain ⟨h, c⟩ := p
      rw [hd] at hs
      simp only [ebind_ok] at hs
      by_cases hle : h + c ≤ f.length
      · rw [if_pos hle] at hs
        have hc : h + c = f.length := Except.ok.inj hs
        rw [derSize, derHeader_prefix f r h c hd]
        simp only [ebind_ok]
        rw [if_pos (by rw [List.length_append]; omega), hc]
      · rw [if_neg hle] at hs
        exact absurd hs (fun hh => Except.noConfusion hh)

theorem skipDer_prefix_append (f r : List Nat) (hs : derSize f = .ok f.length) :
    skipDer (f ++ r) = .ok r := by
  rw [skipDer, derSize_prefix f r hs]
  simp only [ebind_ok]
  rw [List.drop_left]

theorem skipDer_self (f : List Nat) (hs : derSize f = .ok f.length) :
    skipDer f = .ok [] := by
  rw [skipDer, hs]
  simp only [ebind_ok]
  rw [List.drop_length]

/-! ### C9: absent `[3]` wrapper yields the empty OID list -/

theorem push_cert_extensions_no_opt
    (f1 f2 f3 f4 f5 f6 f7 r : List Nat)
    (h1 : derSize f1 = .ok f1.length) (h2 : derSize f2 = .ok f2.length)
    (h3 : derSize f3 = .ok f3.length) (h4 : derSize f4 = .ok f4.length)
    (h5 : derSize f5 = .ok f5.length) (h6 : derSize f6 = .ok f6.length)
    (h7 : derSize f7 = .ok f7.length) :
    push_cert_extensions
      (derBlob 48 (f1 ++ f2 ++ f3 ++ f4 ++ f5 ++ f6 ++ f7) ++ r) = .ok ([], r) := by
  have hT : f1 ++ f2 ++ f3 ++ f4 ++ f5 ++ f6 ++ f7 =
      f1 ++ (f2 ++ (f3 ++ (f4 ++ (f5 ++ (f6 ++ f7))))) := by
    simp [List.append_assoc]
  rw [push_cert_extensions, readTaggedContent_derBlob_append 48 _ r (by decide)]
  simp only [ebind_ok]
  rw [hT, skipDer_prefix_append f1 _ h1]
  simp only [ebind_ok]
  rw [skipDer_prefix_append f2 _ h2]
  simp only [ebind_ok]
  rw [skipDer_prefix_append f3 _ h3]
  simp only [ebind_ok]
  rw [skipDer_prefix_append f4 _ h4]
  simp only [ebind_ok]
  rw [skipDer_prefix_append f5 _ h5]
  simp only [ebind_ok]
  rw [skipDer_prefix_append f6 _ h6]
  simp only [ebind_ok]
  rw [skipDer_self f7 h7]
  simp only [ebind_ok]

/-- C9 (amended): for every certificate (or pre-cert TBS) whose
TBSCertificate carries exactly the seven mandatory fields — so no unique-ID
fields and no `[3]` extensions wrapper — both extractor entry points succeed
and return the empty OID list. (When unique-ID fields are present before an
absent `[3]` wrapper the extractor instead fails; see the counterexample.) -/
theorem no_ext_wrapper_empty_list
    (f1 f2 f3 f4 f5 f6 f7 g1 g2 : List Nat)
    (h1 : derSize f1 = .ok f1.length) (h2 : derSize f2 = .ok f2.length)
    (h3 : derSize f3 = .ok f3.length) (h4 : derSize f4 = .ok f4.length)
    (h5 : derSize f5 = .ok f5.length) (h6 : derSize f6 = .ok f6.length)
    (h7 : derSize f7 = .ok f7.length)
    (hg1 : derSize g1 = .ok g1.length) (hg2 : derSize g2 = .ok g2.length) :
    list_pre_cert_extensions_der
        (derBlob 48 (f1 ++ f2 ++ f3 ++ f4 ++ f5 ++ f6 ++ f7)) = .ok [] ∧
      list_cert_extensions_der
        (derBlob 48 (derBlob 48 (f1 ++ f2 ++ f3 ++ f4 ++ f5 ++ f6 ++ f7) ++ g1 ++ g2)) =
        .ok [] := by
  constructor
  · rw [list_pre_cert_extensions_der,
      show derBlob 48 (f1 ++ f2 ++ f3 ++ f4 ++ f5 ++ f6 ++ f7) =
          derBlob 48 (f1 ++ f2 ++ f3 ++ f4 ++ f5 ++ f6 ++ f7) ++ [] from
        (List.append_nil _).symm,
      push_cert_extensions_no_opt f1 f2 f3 f4 f5 f6 f7 [] h1 h2 h3 h4 h5 h6 h7]
    simp only [ebind_ok]
    rfl
  · rw [list_cert_extensions_der,
      show derBlob 48 (derBlob 48 (f1 ++ f2 ++ f3 ++ f4 ++ f5 ++ f6 ++ f7) ++ g1 ++ g2) =
          derBlob 48 (derBlob 48 (f1 ++ f2 ++ f3 ++ f4 ++ f5 ++ f6 ++ f7) ++ g1 ++ g2) ++
            [] from (List.append_nil _).symm,
      readTaggedContent_derBlob_append 48 _ [] (by decide)]
    simp only [ebind_ok]
    rw [List.append_assoc,
      push_cert_extensions_no_opt f1 f2 f3 f4 f5 f6 f7 (g1 ++ g2) h1 h2 h3 h4 h5 h6 h7]
    simp only [ebind_ok]
    rw [skipDer_prefix_append g1 g2 hg1]
    simp only [ebind_ok]
    rw [skipDer_self g2 hg2]
    simp only [ebind_ok]
    rfl

/-- C9 witness: the empty-list theorem applied with DER NULL standing in for
every skipped field. -/
theorem no_ext_wrapper_empty_list_witness :
    derSize nullDer = .ok nullDer.length ∧
      (list_pre_cert_extensions_der
          (derBlob 48 (nullDer ++ nullDer ++ nullDer ++ nullDer ++ nullDer ++ nullDer ++
            nullDer)) = .ok [] ∧
        list_cert_extensions_der
          (derBlob 48 (derBlob 48 (nullDer ++ nullDer ++ nullDer ++ nullDer ++ nullDer ++
            nullDer ++ nullDer) ++ nullDer ++ nullDer)) = .ok []) :=
  ⟨by decide,
    no_ext_wrapper_empty_list nullDer nullDer nullDer nullDer nullDer nullDer nullDer
      nullDer nullDer (by decide) (by decide) (by decide) (by decide) (by decide)
      (by decide) (by decide) (by decide) (by decide)⟩

/-! ### C7: Filter versus Scan -/

theorem logServe_eq (log : Nat → RawEntry) (counts : Nat → Nat) (k st q : Nat) :
    logServe log counts k st q = (List.range' st (counts k)).map log := by
  rw [logServe, List.range'_eq_map_range, List.map_map]
  rfl

theorem scan_batch_log (log : Nat → RawEntry) :
    ∀ (n i0 : Nat) (out : List Nat),
      scan_batch i0 ((List.range' i0 n).map log) = .ok out →
      ∀ j, j ∈ out ↔ (i0 ≤ j ∧ j < i0 + n ∧ process_leaf (log j).1 = .ok true) := by
  intro n
  induction n with
  | zero =>
      intro i0 out h j
      have hout : out = [] := by
        have h2 : (Except.ok [] : Except Err (List Nat)) = .ok out := h
        exact (Except.ok.inj h2).symm
      subst hout
      simp only [List.not_mem_nil, false_iff]
      rintro ⟨ha, hb, -⟩
      omega
  | succ n ih =>
      intro i0 out h j
      rw [List.range'_succ] at h
      simp only [List.map_cons] at h
      rw [scan_batch] at h
      cases hb : process_leaf (log i0).1 with
      | error e =>
          rw [hb] at h
          simp only [ebind_error] at h
          exact absurd h (fun hh => Except.noConfusion hh)
      | ok b =>
          rw [hb] at h
          simp only [ebind_ok] at h
          cases hr : scan_batch (i0 + 1) ((List.range' (i0 + 1) n).map log) with
          | error e =>
              rw [hr] at h
              simp only [ebind_error] at h
              exact absurd h (fun hh => Except.noConfusion hh)
          | ok r =>
              rw [hr] at h
              simp only [ebind_ok] at h
              have hrec := ih (i0 + 1) r hr j
              cases b with
              | true =>
                  have hout : out = i0 :: r := by
                    have := Except.ok.inj h
                    simpa using this.symm
                  subst hout
                  constructor
                  · intro hj
                    rcases List.mem_cons.mp hj with rfl | hj
                    · exact ⟨Nat.le_refl _, by omega, hb⟩
                    · obtain ⟨ha, hb2, hc⟩ := hrec.mp hj
                      exact ⟨by omega, by omega, hc⟩
                  · rintro ⟨ha, hb2, hc⟩
                    by_cases hji : j = i0
                    · subst hji
                      exact List.mem_cons_self _ _
                    · exact List.mem_cons_of_mem _ (hrec.mpr ⟨by omega, by omega, hc⟩)
              | false =>
                  have hout : out = r := by
                    have := Except.ok.inj h
                    simpa using this.symm
                  subst hout
                  constructor
                  · intro hj
                    obtain ⟨ha, hb2, hc⟩ := hrec.mp hj
                    exact ⟨by omega, by omega, hc⟩
                  · rintro ⟨ha, hb2, hc⟩
                    by_cases hji : j = i0
                    · subst hji
                      exact absurd (Except.ok.inj (hb.symm.trans hc)) (by decide)
                    · exact hrec.mpr ⟨by omega, by omega, hc⟩

theorem dl_loop_scan_spec (log : Nat → RawEntry) (counts : Nat → Nat) (op_end : Nat) :
    ∀ (fuel k start smallest : Nat) (acc out : List Nat),
      dl_loop (logServe log counts) scan_sink op_end fuel k start smallest acc =
        (out, none) →
      ∃ total, op_end ≤ start + total ∧
        ∀ j, j ∈ out ↔
          (j ∈ acc ∨ (start ≤ j ∧ j < start + total ∧ process_leaf (log j).1 = .ok true)) := by
  intro fuel
  induction fuel with
  | zero =>
      intro k start smallest acc out hrun
      rw [dl_loop_zero_fuel] at hrun
      by_cases h : start < op_end
      · rw [if_pos h] at hrun
        simp at hrun
      · rw [if_neg h] at hrun
        injection hrun with h1 h2
        subst h1
        refine ⟨0, by omega, fun j => ?_⟩
        constructor
        · exact fun hj => Or.inl hj
        · rintro (hj | ⟨ha, hb, -⟩)
          · exact hj
          · omega
  | succ fuel ih =>
      intro k start smallest acc out hrun
      by_cases h : start < op_end
      · rw [dl_loop_step (logServe log counts) scan_sink op_end fuel k start smallest
          acc h] at hrun
        rw [logServe_eq log counts k start _] at hrun
        simp only [scan_sink] at hrun
        cases hsb : scan_batch start ((List.range' start (counts k)).map log) with
        | error e =>
            rw [hsb] at hrun
            simp only [ebind_error] at hrun
            simp at hrun
        | ok m =>
            rw [hsb] at hrun
            simp only [ebind_ok] at hrun
            have hlen : ((List.range' start (counts k)).map log).length = counts k := by
              simp
            rw [hlen] at hrun
            by_cases hz : counts k = 0
            · rw [if_pos hz] at hrun
              simp at hrun
            · rw [if_neg hz] at hrun
              obtain ⟨total, hle, hmem⟩ := ih _ _ _ _ _ hrun
              refine ⟨counts k + total, by omega, fun j => ?_⟩
              have hbl := scan_batch_log log (counts k) start m hsb j
              rw [hmem j, List.mem_append, hbl]
              constructor
              · rintro ((hj | hj) | ⟨ha, hb2, hc⟩)
                · exact Or.inl hj
                · obtain ⟨x, y, z⟩ := hj
                  exact Or.inr ⟨x, by omega, z⟩
                · exact Or.inr ⟨by omega, by omega, hc⟩
              · rintro (hj | ⟨ha, hb2, hc⟩)
                · exact Or.inl (Or.inl hj)
                · by_cases hlt : j < start + counts k
                  · exact Or.inl (Or.inr ⟨ha, hlt, hc⟩)
                  · exact Or.inr ⟨by omega, by omega, hc⟩
      · rw [dl_loop, if_neg h] at hrun
        injection hrun with h1 h2
        subst h1
        refine ⟨0, by omega, fun j => ?_⟩
        constructor
        · exact fun hj => Or.inl hj
        · rintro (hj | ⟨ha, hb, -⟩)
          · exact hj
          · omega

theorem filter_loop_mem (log : Nat → RawEntry) (dbGet : Nat → Option (List Nat))
    (hdb : ∀ j, dbGet j = some (dl_value (log j).1 (log j).2))
    (hlen : ∀ j, (log j).1.length < 2 ^ 64 ∧ (log j).2.length < 2 ^ 64) :
    ∀ (ids out : List Nat), filter_loop dbGet ids = .ok out →
      ∀ j, j ∈ out ↔ (j ∈ ids ∧ process_leaf (log j).1 = .ok true) := by
  intro ids
  induction ids with
  | nil =>
      intro out h j
      have hout : out = [] := by
        have h2 : (Except.ok [] : Except Err (List Nat)) = .ok out := h
        exact (Except.ok.inj h2).symm
      subst hout
      simp
  | cons id rest ih =>
      intro out h j
      have hstep : filter_step dbGet id = (do
          let b ← process_leaf (log id).1
          let _ ← read_log_entry (log id).2
          (.ok (some b) : Except Err (Option Bool))) := by
        rw [filter_step, hdb id]
        show (do
            let (leaf, extra) ← filter_read_value (dl_value (log id).1 (log id).2)
            let b ← process_leaf leaf
            let _ ← read_log_entry extra
            (.ok (some b) : Except Err (Option Bool))) = _
        rw [dl_value_roundtrip _ _ (hlen id).1 (hlen id).2]
        simp only [ebind_ok]
      rw [filter_loop, hstep] at h
      cases hpl : process_leaf (log id).1 with
      | error e =>
          rw [hpl] at h
          simp only [ebind_error] at h
          exact absurd h (fun hh => Except.noConfusion hh)
      | ok b =>
          rw [hpl] at h
          simp only [ebind_ok] at h
          cases hrl : read_log_entry (log id).2 with
          | error e =>
              rw [hrl] at h
              simp only [ebind_error] at h
              exact absurd h (fun hh => Except.noConfusion hh)
          | ok le =>
              rw [hrl] at h
              simp only [ebind_ok] at h
              cases hfl : filter_loop dbGet rest with
              | error e =>
                  rw [hfl] at h
                  simp only [ebind_error] at h
                  exact absurd h (fun hh => Except.noConfusion hh)
              | ok r =>
                  rw [hfl] at h
                  simp only [ebind_ok] at h
                  have hrec := ih r hfl j
                  cases b with
                  | true =>
                      have hout : out = id :: r := by
                        have := Except.ok.inj h
                        simpa using this.symm
                      subst hout
                      constructor
                      · intro hj
                        rcases List.mem_cons.mp hj with rfl | hj
                        · exact ⟨List.mem_cons_self _ _, hpl⟩
                        · obtain ⟨hi, hp⟩ := hrec.mp hj
                          exact ⟨List.mem_cons_of_mem _ hi, hp⟩
                      · rintro ⟨hi, hp⟩
                        rcases List.mem_cons.mp hi with rfl | hi
                        · exact List.mem_cons_self _ _
                        · exact List.mem_cons_of_mem _ (hrec.mpr ⟨hi, hp⟩)
                  | false =>
                      have hout : out = r := by
                        have := Except.ok.inj h
                        simpa using this.symm
                      subst hout
                      constructor
                      · intro hj
                        obtain ⟨hi, hp⟩ := hrec.mp hj
                        exact ⟨List.mem_cons_of_mem _ hi, hp⟩
                      · rintro ⟨hi, hp⟩
                        rcases List.mem_cons.mp hi with rfl | hi
                        · exact absurd (Except.ok.inj (hpl.symm.trans hp)) (by decide)
                        · exact hrec.mpr ⟨hi, hp⟩

/-- C7 counterexample: over the same log contents (every entry the same
nameConstraints certificate), Filter over `[0,1]` reports indices 0 and 1,
while Scan over `[0,1]` — served one entry per request — downloads only
index 0 before its loop condition `start < end` fails, and so reports only
index 0: the matched sets differ at the boundary index. -/
theorem scan_filter_differ :
    scan_mode (logServe constLogNC (fun _ => 1)) 0 1 = ([0], none) ∧
      filter_mode dbNC 0 1 = .ok [0, 1] ∧
      (1 : Nat) ∈ ([0, 1] : List Nat) ∧ (1 : Nat) ∉ ([0] : List Nat) :=
  ⟨by decide, by decide, by decide, by decide⟩

/-- C7 (amended): Filter and Scan apply the same per-entry predicate (parse
the leaf, pick the cert or pre-cert extraction path by the signed-entry tag,
match iff an extracted OID is in INTERESTING_OIDS), so over the same log
contents their matched sets agree on every index in `[s, e)`; Scan's
download loop stops once `start < e` fails, so only the boundary index `e`
(and, with an over-delivering server, indices beyond `e`) can distinguish
the two sets. -/
theorem scan_filter_agree
    (log : Nat → RawEntry) (counts : Nat → Nat) (dbGet : Nat → Option (List Nat))
    (s e i : Nat) (sset fset : List Nat)
    (hdb : ∀ j, dbGet j = some (dl_value (log j).1 (log j).2))
    (hlen : ∀ j, (log j).1.length < 2 ^ 64 ∧ (log j).2.length < 2 ^ 64)
    (hscan : scan_mode (logServe log counts) s e = (sset, none))
    (hfilt : filter_mode dbGet s e = .ok fset)
    (hi1 : s ≤ i) (hi2 : i < e) :
    i ∈ sset ↔ i ∈ fset := by
  rw [scan_mode, if_neg (by omega), dl_range, if_neg (by omega)] at hscan
  obtain ⟨total, hle, hmem⟩ := dl_loop_scan_spec log counts e _ _ _ _ _ _ hscan
  rw [filter_mode] at hfilt
  have hf := filter_loop_mem log dbGet hdb hlen _ _ hfilt i
  rw [hmem i, hf]
  constructor
  · rintro (hj | ⟨-, -, hp⟩)
    · simp at hj
    · refine ⟨?_, hp⟩
      rw [List.mem_range']
      exact ⟨i - s, by omega, by omega⟩
  · rintro ⟨-, hp⟩
    exact Or.inr ⟨hi1, by omega, hp⟩

/-- C7 witness: the agreement theorem applied at index 0 of the concrete
`[0,1]` runs. -/
theorem scan_filter_agree_witness :
    ((0 : Nat) ∈ ([0] : List Nat)) ↔ ((0 : Nat) ∈ ([0, 1] : List Nat)) :=
  scan_filter_agree constLogNC (fun _ => 1) dbNC 0 1 0 [0] [0, 1]
    (fun _ => rfl)
    (fun _ => ⟨(by decide : leafNameConstraints.length < 2 ^ 64),
      (by decide : extraDataEmpty.length < 2 ^ 64)⟩)
    (by decide) (by decide) (by decide) (by decide)

end CtExtSearch
